import Mathlib

/-!
Verification of the OpenPGP orchestration module (`src/modules/openpgpjs.js`).

The module composes four public operations — `decrypt`, `encrypt`, `sign`,
`verify` — out of a key store ("Keyring"), an injected unlock callback, a PGP
engine (the `openpgp` import), and a signature mapper.  We embed the module
shallowly: the Keyring and the PGP engine are collaborators outside this
module, so they are modelled as abstract function bundles (`Keyring`,
`PgpEnv`); the module's own control flow is translated line by line.  JS
promises that either fulfil or reject become `Except`; JS `undefined` becomes
`Option`; the truthiness tests the module performs on strings and lists are
translated explicitly.
-/

namespace OpenPGPjs

/-- Error taxonomy of the module (spec §7).  Errors from collaborators are
propagated opaquely, so one inductive suffices. -/
inductive PgpError where
  | NoKeyFound
  | UserCancelled
  | WrongPassphrase
  | DecryptionFailed
  | MalformedMessage
  | MalformedSignature
  | other (msg : String)
deriving DecidableEq, Repr

/-- JS values that are either a string or a `Uint8Array` (modelled as a byte
list): the `data` field of engine results. -/
inductive JsData where
  | str (s : String)
  | bytes (b : List Nat)
deriving DecidableEq, Repr

/-- A raw per-signature verification outcome as returned by the PGP engine:
`signature.keyID.toHex()` is embedded as the hex string itself; the
`signature.verified` promise either rejects with an error message or resolves
to a boolean; `(await signature.signature).packets[0]?.created` is a promise
(`Except Unit`, the error payload is unused) of an optional timestamp. -/
structure RawSignature where
  keyIDHex : String
  verified : Except String Bool
  sigPacketCreated : Except Unit (Option Nat)
deriving Repr

/-- The signature record built by `mapSignatures`: `valid` keeps the JS
tri-state `true` / `false` / `null` as `Option Bool`. -/
structure SigRecord where
  keyId : String
  valid : Option Bool
  created : Option Nat
  fingerprint : Option String
deriving DecidableEq, Repr

/-- The spec's trust classification (§3): `Valid`/`Invalid`/`Unknown`. -/
inductive Trust where
  | Valid
  | Invalid
  | Unknown
deriving DecidableEq, Repr

/-- Correspondence between the JS tri-state `true`/`false`/`null` stored in
`SigRecord.valid` and the spec's `Trust` enumeration. -/
def trustOf : Option Bool → Trust
  | some true => .Valid
  | some false => .Invalid
  | none => .Unknown

/-- The two shapes `keyring.getPrivateKeyByIds` is called with in the module:
a list of key IDs (`decrypt`) or a single fingerprint string
(`encrypt`/`sign`). -/
inductive KeyIdsInput where
  | ids (l : List String)
  | fpr (s : String)
deriving DecidableEq, Repr

/-- The Keyring collaborator (spec §6), abstract: only the call signatures
the module uses.  `getKeyByAddress` returns the address→keys map produced for
a given query list; a `none` lookup models a missing map entry
(`signingKeys[email] || []`).  `getFprForKeyId` returning `none` models the
lookup throwing.  `keystoreGetKeysForId` is `keyring.keystore.getKeysForId`;
`none` models its no-match result. -/
structure Keyring (K : Type) where
  getPrivateKeyByIds : KeyIdsInput → Except PgpError K
  getKeyByAddress : List String → String → Option (List K)
  getKeysByFprs : List String → Except PgpError (List K)
  getFprForKeyId : String → Option String
  keystoreGetKeysForId : String → Bool → Option (List K)

/-- The argument object of `createMessage`. -/
structure MessageSpec where
  text : Option String := none
  binary : Option (List Nat) := none
  filename : Option String := none

/-- The argument object of the engine's `decrypt`. -/
structure DecryptArgs (Msg K : Type) where
  message : Msg
  decryptionKeys : K
  verificationKeys : Option (List K)
  format : Option String

/-- The raw result of the engine's `decrypt`. -/
structure RawDecryptResult where
  data : JsData
  signatures : List RawSignature

/-- The result of the module's `decrypt` after signature mapping. -/
structure DecryptResult where
  data : JsData
  signatures : List SigRecord

/-- The argument object of the engine's `encrypt`.  `signingKeys` is the
single optional signing key the module passes. -/
structure EncryptArgs (Msg K : Type) where
  message : Option Msg
  encryptionKeys : List K
  signingKeys : Option K
  format : String

/-- The argument object of the engine's `sign`. -/
structure SignArgs (Msg K : Type) where
  message : Msg
  signingKeys : List K

/-- The argument object of the engine's `verify`.  `verificationKeys` holds
`Option K` elements because the module pushes `keys[0]`, which is JS
`undefined` when the matched key list is empty. -/
structure VerifyArgs (Msg K Sig : Type) where
  message : Option Msg
  verificationKeys : List (Option K)
  signature : Option Sig

/-- The raw result of the engine's `verify`. -/
structure RawVerifyResult where
  data : String
  signatures : List RawSignature

/-- The result of the module's `verify` after signature mapping. -/
structure VerifyResult where
  data : String
  signatures : List SigRecord

/-- The PGP-engine collaborator and the two data-URL helpers from
`src/lib/util` that `encrypt` uses, bundled as an abstract environment.
Engine calls that can reject are `Except`-valued. -/
structure PgpEnv (Msg K Sig : Type) where
  createMessage : MessageSpec → Msg
  pgpDecrypt : DecryptArgs Msg K → Except PgpError RawDecryptResult
  pgpEncrypt : EncryptArgs Msg K → Except PgpError JsData
  createCleartextMessage : String → Msg
  pgpSign : SignArgs Msg K → Except PgpError String
  readSignature : String → Except PgpError Sig
  pgpVerify : VerifyArgs Msg K Sig → Except PgpError RawVerifyResult
  dataURL2str : String → String
  str2Uint8Array : String → List Nat

/-- JS truthiness of an optional string: `undefined` and the empty string are
falsy. -/
def truthyS : Option String → Bool
  | none => false
  | some s => !s.isEmpty

/-- The `senderAddress` parameter of `decrypt` before normalization:
`undefined`, a single address string, or an address array. -/
inductive StrOrList where
  | undef
  | str (s : String)
  | list (l : List String)
deriving DecidableEq, Repr

/-- First-occurrence deduplication, auxiliary: `seen` is the set of addresses
already emitted. -/
def dedupFirstAux : List String → List String → List String
  | _, [] => []
  | seen, a :: as =>
    if a ∈ seen then dedupFirstAux seen as else a :: dedupFirstAux (a :: seen) as

/-- First-occurrence deduplication of an address list. -/
def dedupFirst (l : List String) : List String :=
  dedupFirstAux [] l

/-- Modelled from the spec: `toArray` from `src/lib/util`, which is not among
the provided sources.  Spec §4.3 step 2: "normalize `senderAddress` to a list
(may be empty)"; spec §4.1: "addresses are deduplicated into a normalized
list before lookup". -/
def toArray : StrOrList → List String
  | .undef => []
  | .str s => [s]
  | .list l => dedupFirst l

/-- Modelled from the spec: `Uint8Array2str` from `src/lib/util`, which is
not among the provided sources.  Spec §6: "binary payloads are bridged
to/from a string representation losslessly (one code unit per byte)".  On a
string input (not reachable from the module's call sites) it is the
identity. -/
def Uint8Array2str : JsData → JsData
  | .bytes b => .str (String.mk (b.map fun n => Char.ofNat (n % 256)))
  | .str s => .str s

/-- The test `/^Could not find signing key with key ID/.test(e.message)`:
the anchored regex holds exactly when the error message starts with the
quoted words (spelled out as a character-list test so that it evaluates by
kernel reduction). -/
def noSigningKeyMsg (msg : String) : Bool :=
  "Could not find signing key with key ID".toList.isPrefixOf msg.toList

/-- The tri-state classification of `sig.valid` inside `mapSignatures`
(before the fingerprint-binding step): `sig.valid = await signature.verified`,
and on rejection `null` when the message reports a missing signing key,
`false` otherwise. -/
def sigValidOf : Except String Bool → Option Bool
  | .ok v => some v
  | .error e => if noSigningKeyMsg e then none else some false

/-- The per-signature body of `mapSignatures`: classify `valid`, extract
`created` best-effort, then bind the key ID to a fingerprint when `valid` is
not `null`; a failing fingerprint lookup is absorbed and forces
`valid = false`. -/
def mapSignature {K : Type} (keyring : Keyring K) (signature : RawSignature) :
    SigRecord :=
  let keyId := signature.keyIDHex
  let valid := sigValidOf signature.verified
  let created : Option Nat :=
    match signature.sigPacketCreated with
    | .ok c => c
    | .error _ => none
  if valid ≠ none then
    match keyring.getFprForKeyId keyId with
    | some fpr =>
      { keyId := keyId, valid := valid, created := created, fingerprint := some fpr }
    | none =>
      { keyId := keyId, valid := some false, created := created, fingerprint := none }
  else
    { keyId := keyId, valid := valid, created := created, fingerprint := none }

/-- `mapSignatures`: `Promise.all(signatures.map(...))` — one record per raw
signature, in input order. -/
def mapSignatures {K : Type} (signatures : List RawSignature)
    (keyring : Keyring K) : List SigRecord :=
  signatures.map (mapSignature keyring)

/-- Lines 33–34 of `decrypt`: query the address→keys map for the normalized
sender-address list, then flatten per address in address order
(`senderAddress.reduce((result, email) => result.concat(signingKeys[email] || []), [])`). -/
def flattenAddressKeys {K : Type} (keyring : Keyring K)
    (senderAddress : List String) : List K :=
  let signingKeys := keyring.getKeyByAddress senderAddress
  senderAddress.foldl (fun result email => result ++ (signingKeys email).getD []) []

/-- Lines 26–42 of `decrypt`: the verification-key set handed to the engine.
`none` is the JS `undefined` left when neither a sender address nor the
self-signed flag was supplied. -/
def decryptSigningKeys {K : Type} (keyring : Keyring K)
    (senderAddress : List String) (selfSigned : Bool) (privateKey : K) :
    Option (List K) :=
  if senderAddress.length != 0 || selfSigned then
    let signingKeys :=
      if senderAddress.length != 0 then flattenAddressKeys keyring senderAddress
      else []
    some (if signingKeys.length == 0 then [privateKey] else signingKeys)
  else
    none

/-- The module's `decrypt`: resolve and unlock the decryption key, determine
the verification-key set, call the engine, map signatures, and bridge binary
output to the string representation. -/
def decrypt {Msg K Sig : Type} (env : PgpEnv Msg K Sig) (message : Msg)
    (keyring : Keyring K) (senderAddress : StrOrList) (selfSigned : Bool)
    (encryptionKeyIds : List String) (unlockKey : K → Except PgpError K)
    (format : Option String) : Except PgpError DecryptResult := do
  let privateKey ← keyring.getPrivateKeyByIds (.ids encryptionKeyIds)
  let privateKey ← unlockKey privateKey
  let senderAddrs := toArray senderAddress
  let signingKeys := decryptSigningKeys keyring senderAddrs selfSigned privateKey
  let result ← env.pgpDecrypt
    { message := message, decryptionKeys := privateKey,
      verificationKeys := signingKeys, format := format }
  let signatures := mapSignatures result.signatures keyring
  let data := if format = some "binary" then Uint8Array2str result.data else result.data
  pure { data := data, signatures := signatures }

/-- The module's `encrypt`: build a message from `data` or `dataURL`, resolve
and unlock the optional signing key, resolve recipient keys, call the engine,
and bridge binary output. -/
def encrypt {Msg K Sig : Type} (env : PgpEnv Msg K Sig)
    (data dataURL : Option String) (keyring : Keyring K)
    (unlockKey : K → Except PgpError K) (encryptionKeyFprs : List String)
    (signingKeyFpr : Option String) (filename : Option String) (armor : Bool) :
    Except PgpError JsData := do
  let message : Option Msg :=
    if truthyS data then
      some (env.createMessage { text := data, filename := filename })
    else if truthyS dataURL then
      let content := env.dataURL2str (dataURL.getD "")
      some (env.createMessage
        { binary := some (env.str2Uint8Array content), filename := filename })
    else
      none
  let signingKey : Option K ←
    if truthyS signingKeyFpr then do
      let sk ← keyring.getPrivateKeyByIds (.fpr (signingKeyFpr.getD ""))
      let sk ← unlockKey sk
      pure (some sk)
    else
      pure none
  let keys ← keyring.getKeysByFprs encryptionKeyFprs
  let result ← env.pgpEncrypt
    { message := message, encryptionKeys := keys, signingKeys := signingKey,
      format := if armor then "armored" else "binary" }
  pure (if armor then result else Uint8Array2str result)

/-- The module's `sign`: build a cleartext message, resolve and unlock the
signing key, and call the engine. -/
def sign {Msg K Sig : Type} (env : PgpEnv Msg K Sig) (data : String)
    (keyring : Keyring K) (unlockKey : K → Except PgpError K)
    (signingKeyFpr : String) : Except PgpError String := do
  let message := env.createCleartextMessage data
  let signingKey ← keyring.getPrivateKeyByIds (.fpr signingKeyFpr)
  let signingKey ← unlockKey signingKey
  let result ← env.pgpSign { message := message, signingKeys := [signingKey] }
  pure result

/-- The `signingKeyIds` elements of `verify`: a raw identifier string or a
KeyID object (embedded by the hex string its `toHex()` yields). -/
inductive KeyIdJs where
  | str (s : String)
  | obj (hex : String)
deriving DecidableEq, Repr

/-- `typeof keyId === 'string' ? keyId : keyId.toHex()`. -/
def keyIdHex : KeyIdJs → String
  | .str s => s
  | .obj h => h

/-- Lines 132–139 of `verify`: collect at most one key per identifier from
the keystore; `keys.head?` is `keys[0]` (`none` is the JS `undefined` pushed
when the matched list is empty). -/
def verifySigningKeys {K : Type} (keyring : Keyring K)
    (signingKeyIds : List KeyIdJs) : List (Option K) :=
  signingKeyIds.foldl
    (fun signingKeys keyId =>
      match keyring.keystoreGetKeysForId (keyIdHex keyId) true with
      | some keys => signingKeys ++ [keys.head?]
      | none => signingKeys)
    []

/-- The module's `verify`: collect verification keys, reconstruct a message
from plaintext plus detached signature when both are supplied, call the
engine, and map signatures. -/
def verify {Msg K Sig : Type} (env : PgpEnv Msg K Sig) (message : Option Msg)
    (plaintext detachedSignature : Option String) (keyring : Keyring K)
    (signingKeyIds : List KeyIdJs) : Except PgpError VerifyResult := do
  let signingKeys := verifySigningKeys keyring signingKeyIds
  let (message, signature) ←
    if truthyS plaintext && truthyS detachedSignature then do
      let signature ← env.readSignature (detachedSignature.getD "")
      let message := env.createMessage { text := plaintext }
      pure (some message, some signature)
    else
      pure (message, (none : Option Sig))
  let result ← env.pgpVerify
    { message := message, verificationKeys := signingKeys, signature := signature }
  let signatures := mapSignatures result.signatures keyring
  pure { data := result.data, signatures := signatures }

/-- Modelled from the spec: `KeyringBase.getKeysByFprs` (`src/modules/keyring.js`,
not among the provided sources).  Spec §4.1: "`resolveEncryptionKeys(fingerprints)`
→ list of public KeyHandles; fails `NoKeyFound` if the resulting list is empty".
The keystore content is abstracted as a fingerprint→key partial map. -/
def specGetKeysByFprs {K : Type} (store : String → Option K)
    (fprs : List String) : Except PgpError (List K) :=
  let keys := fprs.filterMap store
  if keys.isEmpty then .error .NoKeyFound else .ok keys

/-- One completion step of the `Promise.all` evaluation model: the task at
index `i` completes and stores its result at slot `i`; an out-of-range index
completes nothing. -/
def completeAt {α β : Type} (f : α → β) (xs : List α) (acc : List (Option β))
    (i : Nat) : List (Option β) :=
  match xs[i]? with
  | some x => acc.set i (some (f x))
  | none => acc

/-- The `Promise.all` evaluation model: starting from all slots pending,
run the per-element tasks in the completion order `order`, each storing its
result at its own input index. -/
def promiseAllSchedule {α β : Type} (f : α → β) (xs : List α)
    (order : List Nat) : List (Option β) :=
  order.foldl (completeAt f xs) (List.replicate xs.length none)

/-! ## Concrete collaborator instances used by the witnesses -/

/-- A concrete keyring over `Nat` key handles: private-key resolution
succeeds, the address map is empty, fingerprint lookup always fails, and the
keystore returns two keys for every identifier. -/
def krW : Keyring Nat where
  getPrivateKeyByIds := fun _ => .ok 7
  getKeyByAddress := fun _ _ => none
  getKeysByFprs := fun _ => .ok [1]
  getFprForKeyId := fun _ => none
  keystoreGetKeysForId := fun _ _ => some [3, 4]

/-- A concrete keyring whose fingerprint lookup succeeds. -/
def krFprW : Keyring Nat :=
  { krW with getFprForKeyId := fun _ => some "0123456789abcdef0123456789abcdef01234567" }

/-- A concrete keyring whose recipient-key resolution follows the
spec-modelled `getKeysByFprs` over an empty store. -/
def krEmptyStoreW : Keyring Nat :=
  { krW with getKeysByFprs := specGetKeysByFprs fun _ => none }

/-- A concrete engine environment: every engine call succeeds and returns no
signatures. -/
def envW : PgpEnv Nat Nat Nat where
  createMessage := fun _ => 0
  pgpDecrypt := fun _ => .ok { data := .str "plaintext", signatures := [] }
  pgpEncrypt := fun _ => .ok (.str "ciphertext")
  createCleartextMessage := fun _ => 1
  pgpSign := fun _ => .ok "signed"
  readSignature := fun _ => .ok 2
  pgpVerify := fun _ => .ok { data := "verified", signatures := [] }
  dataURL2str := fun s => s
  str2Uint8Array := fun _ => []

/-- A raw signature whose verification handle resolved successfully. -/
def sigOkW : RawSignature :=
  { keyIDHex := "ab12cd34ef56ab78", verified := .ok true,
    sigPacketCreated := .ok (some 1700000000) }

/-- A raw signature whose verification handle rejected with the
missing-signing-key report. -/
def sigNoKeyW : RawSignature :=
  { keyIDHex := "4f2c1a9b8d7e6f50",
    verified := .error "Could not find signing key with key ID 4f2c1a9b8d7e6f50",
    sigPacketCreated := .error () }

/-! ## Auxiliary lemmas -/

theorem exceptErrorBind {ε α β : Type} (e : ε) (f : α → Except ε β) :
    (Except.error e >>= f : Except ε β) = Except.error e := rfl

theorem exceptOkBind {ε α β : Type} (a : α) (f : α → Except ε β) :
    (Except.ok a >>= f : Except ε β) = f a := rfl

theorem exceptPureBind {ε α β : Type} (a : α) (f : α → Except ε β) :
    (pure a >>= f : Except ε β) = f a := rfl

theorem trustOf_eq_unknown (v : Option Bool) : trustOf v = .Unknown ↔ v = none := by
  cases v with
  | none => simp [trustOf]
  | some b => cases b <;> simp [trustOf]

theorem dedupFirstAux_nodup_disjoint (l : List String) :
    ∀ seen : List String,
      (dedupFirstAux seen l).Nodup ∧ ∀ x ∈ dedupFirstAux seen l, x ∉ seen := by
  induction l with
  | nil => intro seen; simp [dedupFirstAux]
  | cons a as ih =>
    intro seen
    by_cases ha : a ∈ seen
    · refine ⟨?_, ?_⟩
      · simpa [dedupFirstAux, ha] using (ih seen).1
      · intro x hx
        simp only [dedupFirstAux, if_pos ha] at hx
        exact (ih seen).2 x hx
    · obtain ⟨hnd, hdis⟩ := ih (a :: seen)
      refine ⟨?_, ?_⟩
      · simp only [dedupFirstAux, if_neg ha, List.nodup_cons]
        exact ⟨fun hmem => hdis a hmem (List.mem_cons_self a seen), hnd⟩
      · intro x hx
        simp only [dedupFirstAux, if_neg ha, List.mem_cons] at hx
        rcases hx with rfl | hx
        · exact ha
        · exact fun hxs => hdis x hx (List.mem_cons_of_mem a hxs)

theorem dedupFirst_nodup (l : List String) : (dedupFirst l).Nodup :=
  (dedupFirstAux_nodup_disjoint l []).1

theorem foldl_append_eq_flatMap {α β : Type} (g : α → List β) (l : List α) :
    ∀ acc : List β,
      l.foldl (fun result x => result ++ g x) acc = acc ++ l.flatMap g := by
  induction l with
  | nil => intro acc; simp
  | cons a as ih =>
    intro acc
    simp only [List.foldl_cons, List.flatMap_cons, ih]
    rw [List.append_assoc]

theorem verifySigningKeysFoldl {K : Type} (keyring : Keyring K) (ids : List KeyIdJs) :
    ∀ acc : List (Option K),
      ids.foldl
          (fun signingKeys keyId =>
            match keyring.keystoreGetKeysForId (keyIdHex keyId) true with
            | some keys => signingKeys ++ [keys.head?]
            | none => signingKeys)
          acc =
        acc ++ ids.flatMap fun keyId =>
          match keyring.keystoreGetKeysForId (keyIdHex keyId) true with
          | some keys => [keys.head?]
          | none => [] := by
  induction ids with
  | nil => intro acc; simp
  | cons i is ih =>
    intro acc
    simp only [List.foldl_cons, List.flatMap_cons]
    rcases h : keyring.keystoreGetKeysForId (keyIdHex i) true with - | keys
    · simp only [h, ih, List.nil_append]
    · simp only [h, ih, List.append_assoc, List.singleton_append]


theorem completeAt_length {α β : Type} (f : α → β) (xs : List α)
    (acc : List (Option β)) (i : Nat) :
    (completeAt f xs acc i).length = acc.length := by
  unfold completeAt
  rcases h : xs[i]? with - | x
  · rfl
  · simp

theorem foldl_completeAt_getElem {α β : Type} (f : α → β) (xs : List α)
    (order : List Nat) :
    ∀ acc : List (Option β), acc.length = xs.length → ∀ j : Nat,
      (order.foldl (completeAt f xs) acc)[j]? =
        if j ∈ order ∧ j < xs.length then xs[j]?.map (fun x => some (f x))
        else acc[j]? := by
  induction order with
  | nil =>
    intro acc hlen j
    simp
  | cons i is ih =>
    intro acc hlen j
    have hlen' : (completeAt f xs acc i).length = xs.length := by
      rw [completeAt_length, hlen]
    rw [List.foldl_cons, ih _ hlen' j]
    by_cases hjis : j ∈ is ∧ j < xs.length
    · rw [if_pos hjis, if_pos ⟨List.mem_cons_of_mem i hjis.1, hjis.2⟩]
    · rw [if_neg hjis]
      by_cases hji : j = i
      · subst hji
        by_cases hjn : j < xs.length
        · rw [if_pos ⟨List.mem_cons_self j is, hjn⟩]
          have hx : xs[j]? = some xs[j] := List.getElem?_eq_getElem hjn
          unfold completeAt
          rw [hx]
          have hj : j < acc.length := by rw [hlen]; exact hjn
          rw [List.getElem?_set_self hj]
          simp
        · rw [if_neg fun h => hjn h.2]
          unfold completeAt
          have hx : xs[j]? = none := List.getElem?_eq_none (by omega)
          rw [hx]
      · have hcond : ¬(j ∈ i :: is ∧ j < xs.length) := by
          intro hc
          rcases List.mem_cons.mp hc.1 with h | h
          · exact hji h
          · exact hjis ⟨h, hc.2⟩
        rw [if_neg hcond]
        unfold completeAt
        rcases hx : xs[i]? with - | x
        · rfl
        · exact List.getElem?_set_ne fun h => hji h.symm

/-! ## Claims -/

/-- C1: in `decrypt`, whenever the normalized `senderAddress` list is non-empty
or `selfSigned` is set, the verification-key set handed to the engine
(`decryptSigningKeys`, which `decrypt` passes as `verificationKeys`) is a
non-empty list; and if the keys resolved per sender address and flattened in
address order (`flattenAddressKeys`) form an empty list, it is exactly the
one-element list containing the unlocked decryption key. -/
theorem decrypt_verificationKeys_nonempty {K : Type} (keyring : Keyring K)
    (senderAddrs : List String) (selfSigned : Bool) (privateKey : K)
    (h : senderAddrs ≠ [] ∨ selfSigned = true) :
    ∃ l, decryptSigningKeys keyring senderAddrs selfSigned privateKey = some l ∧
      l ≠ [] ∧ (flattenAddressKeys keyring senderAddrs = [] → l = [privateKey]) := by
  cases senderAddrs with
  | nil =>
    have hss : selfSigned = true := by
      rcases h with h | h
      · exact absurd rfl h
      · exact h
    subst hss
    exact ⟨[privateKey], by simp [decryptSigningKeys], by simp, fun _ => rfl⟩
  | cons a as =>
    cases hfl : flattenAddressKeys keyring (a :: as) with
    | nil =>
      exact ⟨[privateKey], by simp [decryptSigningKeys, hfl], by simp, fun _ => rfl⟩
    | cons x xs =>
      exact ⟨x :: xs, by simp [decryptSigningKeys, hfl], by simp,
        fun hc => absurd hc (by simp)⟩

/-- Witness for C1 at a concrete input: self-signed draft, no sender address. -/
theorem decrypt_verificationKeys_nonempty_witness :
    ∃ l : List Nat,
      decryptSigningKeys krW [] true 7 = some l ∧
        l ≠ [] ∧ (flattenAddressKeys krW [] = [] → l = [7]) :=
  decrypt_verificationKeys_nonempty krW [] true 7 (Or.inr rfl)

/-- C2: in `mapSignatures`, for a signature whose tri-state classification is
not `Unknown`, a failing fingerprint lookup forces the record's `valid` field
to `Invalid` (never leaves it `Valid`), leaves the fingerprint unset, and is
absorbed: `mapSignatures` is total and still returns one record per input
signature (so the message data and the other signatures are still
returned). -/
theorem fingerprint_failure_forces_invalid {K : Type} (keyring : Keyring K)
    (s : RawSignature) (hv : trustOf (sigValidOf s.verified) ≠ .Unknown)
    (hf : keyring.getFprForKeyId s.keyIDHex = none) :
    trustOf (mapSignature keyring s).valid = .Invalid ∧
      (mapSignature keyring s).fingerprint = none ∧
      ∀ sigs : List RawSignature, (mapSignatures sigs keyring).length = sigs.length := by
  have hv' : sigValidOf s.verified ≠ none := fun h =>
    hv ((trustOf_eq_unknown _).mpr h)
  refine ⟨?_, ?_, fun sigs => by simp [mapSignatures]⟩
  · simp [mapSignature, hv', hf, trustOf]
  · simp [mapSignature, hv', hf]

/-- Witness for C2 at a concrete input: a cryptographically valid signature
whose key ID has no fingerprint mapping in `krW`. -/
theorem fingerprint_failure_forces_invalid_witness :
    trustOf (mapSignature krW sigOkW).valid = .Invalid :=
  (fingerprint_failure_forces_invalid krW sigOkW (by decide) rfl).1

/-- C3: the tri-state classification of a raw signature outcome in
`mapSignatures`: `Unknown` exactly when the verification handle rejected with
the no-matching-signing-key report, `Invalid` when it rejected with any other
message, and `Valid` when it resolved (the engine's handle resolves to
`true`). -/
theorem sigValid_triState :
    (∀ v : Except String Bool,
        trustOf (sigValidOf v) = .Unknown ↔
          ∃ m, v = .error m ∧ noSigningKeyMsg m = true) ∧
      (∀ m, noSigningKeyMsg m = false → trustOf (sigValidOf (.error m)) = .Invalid) ∧
      trustOf (sigValidOf (.ok true)) = .Valid := by
  refine ⟨?_, ?_, rfl⟩
  · intro v
    cases v with
    | ok b => cases b <;> simp [sigValidOf, trustOf]
    | error m =>
      by_cases hm : noSigningKeyMsg m
      · simp [sigValidOf, hm, trustOf]
      · simp [sigValidOf, hm, trustOf]
  · intro m hm
    simp [sigValidOf, hm, trustOf]

set_option maxRecDepth 4096 in
/-- Witness for C3 at concrete inputs: a missing-key rejection classifies
`Unknown`, a hash-mismatch rejection classifies `Invalid`. -/
theorem sigValid_triState_witness :
    trustOf (sigValidOf (.error "Could not find signing key with key ID 4f2c1a9b8d7e6f50")) =
        .Unknown ∧
      trustOf (sigValidOf (.error "Signed digest did not match")) = .Invalid :=
  ⟨(sigValid_triState.1 _).mpr
      ⟨"Could not find signing key with key ID 4f2c1a9b8d7e6f50", rfl, by decide⟩,
    sigValid_triState.2.1 "Signed digest did not match" (by decide)⟩

/-- C4: when the normalized `senderAddress` list is empty and `selfSigned` is
not set, `decryptSigningKeys` is `none` for every keyring (so no signing-key
lookup is consulted and no verification-key set is handed to the engine),
and — under the engine contract that a decryption without verification keys
reports no signatures — the result of `decrypt` carries an empty `signatures`
list. -/
theorem decrypt_unsigned_no_verification {Msg K Sig : Type} (env : PgpEnv Msg K Sig)
    (message : Msg) (keyring : Keyring K) (senderAddress : StrOrList)
    (encryptionKeyIds : List String) (unlockKey : K → Except PgpError K)
    (format : Option String) (hsa : toArray senderAddress = [])
    (heng : ∀ (args : DecryptArgs Msg K) (r : RawDecryptResult),
        args.verificationKeys = none → env.pgpDecrypt args = .ok r → r.signatures = []) :
    (∀ (kr' : Keyring K) (pk : K), decryptSigningKeys kr' [] false pk = none) ∧
      ∀ res : DecryptResult,
        decrypt env message keyring senderAddress false encryptionKeyIds unlockKey format =
            .ok res →
          res.signatures = [] := by
  refine ⟨fun kr' pk => by simp [decryptSigningKeys], ?_⟩
  intro res hres
  unfold decrypt at hres
  rcases h1 : keyring.getPrivateKeyByIds (.ids encryptionKeyIds) with e | pk
  · rw [h1, exceptErrorBind] at hres
    exact absurd hres (by simp)
  rw [h1, exceptOkBind] at hres
  rcases h2 : unlockKey pk with e | pk'
  · rw [h2, exceptErrorBind] at hres
    exact absurd hres (by simp)
  rw [h2, exceptOkBind, hsa] at hres
  have hvk : decryptSigningKeys keyring [] false pk' = none := by
    simp [decryptSigningKeys]
  simp only [hvk] at hres
  rcases h3 : env.pgpDecrypt
      { message := message, decryptionKeys := pk', verificationKeys := none,
        format := format } with e | r
  · rw [h3, exceptErrorBind] at hres
    exact absurd hres (by simp)
  rw [h3, exceptOkBind] at hres
  have hsig : r.signatures = [] := heng _ r rfl h3
  injection hres with hres
  rw [← hres]
  simp [hsig, mapSignatures]

/-- Witness for C4 at a concrete input: `decryptSigningKeys` is undefined for
`krW` with no sender address and `selfSigned` unset, as obtained from the
theorem at a run of `decrypt` against the concrete engine `envW`. -/
theorem decrypt_unsigned_no_verification_witness :
    decryptSigningKeys krW [] false 7 = none :=
  (decrypt_unsigned_no_verification envW 0 krW .undef [] (fun k => .ok k) none rfl
      (fun _ r _ h => by
        injection h with h
        rw [← h])).1
    krW 7

/-- C5: a signature record produced by `mapSignatures` (used by both
`decrypt` and `verify`) that is classified `Unknown` carries no fingerprint:
the fingerprint field is populated only when the classification is not
`Unknown`. -/
theorem unknown_signature_has_no_fingerprint {K : Type} (keyring : Keyring K)
    (sigs : List RawSignature) (r : SigRecord) (hr : r ∈ mapSignatures sigs keyring)
    (hu : trustOf r.valid = .Unknown) : r.fingerprint = none := by
  obtain ⟨s, -, rfl⟩ := List.mem_map.mp hr
  rw [trustOf_eq_unknown] at hu
  by_cases hv : sigValidOf s.verified = none
  · simp [mapSignature, hv]
  · rcases hf : keyring.getFprForKeyId s.keyIDHex with - | fpr
    · simp [mapSignature, hv, hf]
    · exfalso
      simp only [mapSignature, hv, hf, ne_eq, not_false_eq_true, if_true] at hu

set_option maxRecDepth 4096 in
/-- Witness for C5 at a concrete input: the record of a signature whose key
was absent from the keystore is `Unknown` and carries no fingerprint, even
against a keyring whose fingerprint lookup would succeed. -/
theorem unknown_signature_has_no_fingerprint_witness :
    (mapSignature krFprW sigNoKeyW).fingerprint = none :=
  unknown_signature_has_no_fingerprint krFprW [sigNoKeyW] (mapSignature krFprW sigNoKeyW)
    (by simp [mapSignatures]) (by decide)

/-- C8: the sender-address resolution of `decrypt`: the normalized list
produced by `toArray` contains no duplicate addresses, and the flattening of
the per-address key lists concatenates them in address order
(`flattenAddressKeys` equals the address-ordered `flatMap` of the lookup
results, where a missing map entry contributes the empty list — an empty
overall result is an ordinary value, not an error). -/
theorem resolveSigningKeysByAddress_spec {K : Type} (keyring : Keyring K)
    (senderAddress : StrOrList) :
    (toArray senderAddress).Nodup ∧
      ∀ sa : List String,
        flattenAddressKeys keyring sa =
          sa.flatMap fun email => (keyring.getKeyByAddress sa email).getD [] := by
  constructor
  · cases senderAddress with
    | undef => simp [toArray]
    | str s => simp [toArray]
    | list l => exact dedupFirst_nodup l
  · intro sa
    simpa [flattenAddressKeys] using
      foldl_append_eq_flatMap (fun email => (keyring.getKeyByAddress sa email).getD []) sa []

/-- C7: when key resolution composed with the unlock callback fails, each of
`decrypt`, `sign` and `encrypt` returns that error for every engine
environment — the operation aborts before any engine `decrypt`/`sign`/`encrypt`
call and produces no plaintext, signature or ciphertext output. -/
theorem resolution_unlock_failure_aborts {Msg K Sig : Type} (keyring : Keyring K)
    (unlockKey : K → Except PgpError K) (encryptionKeyIds : List String)
    (signingKeyFpr : String) (e e' : PgpError)
    (hd : keyring.getPrivateKeyByIds (.ids encryptionKeyIds) >>= unlockKey = .error e)
    (hs : keyring.getPrivateKeyByIds (.fpr signingKeyFpr) >>= unlockKey = .error e')
    (hfpr : truthyS (some signingKeyFpr) = true) :
    (∀ (env : PgpEnv Msg K Sig) (message : Msg) (senderAddress : StrOrList)
        (selfSigned : Bool) (format : Option String),
        decrypt env message keyring senderAddress selfSigned encryptionKeyIds unlockKey
            format =
          .error e) ∧
      (∀ (env : PgpEnv Msg K Sig) (data : String),
        sign env data keyring unlockKey signingKeyFpr = .error e') ∧
      ∀ (env : PgpEnv Msg K Sig) (data dataURL : Option String)
        (encryptionKeyFprs : List String) (filename : Option String) (armor : Bool),
        encrypt env data dataURL keyring unlockKey encryptionKeyFprs (some signingKeyFpr)
            filename armor =
          .error e' := by
  refine ⟨?_, ?_, ?_⟩
  · intro env message senderAddress selfSigned format
    unfold decrypt
    rcases h1 : keyring.getPrivateKeyByIds (.ids encryptionKeyIds) with e0 | pk
    · rw [h1, exceptErrorBind] at hd
      simp only [exceptErrorBind]
      injection hd with hd
      rw [hd]
    · rw [h1, exceptOkBind] at hd
      simp only [exceptOkBind, hd, exceptErrorBind]
  · intro env data
    unfold sign
    rcases h1 : keyring.getPrivateKeyByIds (.fpr signingKeyFpr) with e0 | sk
    · rw [h1, exceptErrorBind] at hs
      simp only [exceptErrorBind]
      injection hs with hs
      rw [hs]
    · rw [h1, exceptOkBind] at hs
      simp only [exceptOkBind, hs, exceptErrorBind]
  · intro env data dataURL encryptionKeyFprs filename armor
    unfold encrypt
    simp only [hfpr, if_true, Option.getD_some]
    rcases h1 : keyring.getPrivateKeyByIds (.fpr signingKeyFpr) with e0 | sk
    · rw [h1, exceptErrorBind] at hs
      simp only [exceptErrorBind]
      injection hs with hs
      rw [hs]
    · rw [h1, exceptOkBind] at hs
      simp only [exceptOkBind, hs, exceptErrorBind]

/-- Witness for C7 at a concrete input: a cancelled unlock callback makes
`decrypt` fail with the unlock error against the concrete engine `envW`. -/
theorem resolution_unlock_failure_aborts_witness :
    decrypt envW 0 krW .undef false [] (fun _ => .error .UserCancelled) none =
      .error .UserCancelled :=
  (resolution_unlock_failure_aborts krW (fun _ => .error .UserCancelled) []
      "0f1e2d3c4b5a6978" .UserCancelled .UserCancelled rfl rfl rfl).1
    envW 0 .undef false none

/-- C9: when the recipient-key resolution (the spec-modelled
`specGetKeysByFprs`, which fails `NoKeyFound` on an empty resolved list)
finds no keys for `encryptionKeyFprs`, `encrypt` without a signing key fails
with `NoKeyFound` for every engine environment — the engine is never invoked
with zero recipients. -/
theorem encrypt_empty_recipients_noKeyFound {Msg K Sig : Type} (keyring : Keyring K)
    (store : String → Option K) (unlockKey : K → Except PgpError K)
    (encryptionKeyFprs : List String)
    (hk : keyring.getKeysByFprs encryptionKeyFprs =
      specGetKeysByFprs store encryptionKeyFprs)
    (hempty : encryptionKeyFprs.filterMap store = []) :
    ∀ (env : PgpEnv Msg K Sig) (data dataURL filename : Option String) (armor : Bool),
      encrypt env data dataURL keyring unlockKey encryptionKeyFprs none filename armor =
        .error .NoKeyFound := by
  intro env data dataURL filename armor
  have hks : keyring.getKeysByFprs encryptionKeyFprs = .error .NoKeyFound := by
    rw [hk]
    simp [specGetKeysByFprs, hempty]
  unfold encrypt
  simp only [truthyS, Bool.false_eq_true, if_false, exceptPureBind, hks, exceptErrorBind]

/-- Witness for C9 at a concrete input: an empty fingerprint store makes
`encrypt` fail with `NoKeyFound` against the concrete engine `envW`. -/
theorem encrypt_empty_recipients_noKeyFound_witness :
    encrypt envW none none krEmptyStoreW (fun k => .ok k)
        ["a1b2c3d4e5f60718a1b2c3d4e5f60718a1b2c3d4"] none none true =
      .error .NoKeyFound :=
  encrypt_empty_recipients_noKeyFound krEmptyStoreW (fun _ => none) (fun k => .ok k)
    ["a1b2c3d4e5f60718a1b2c3d4e5f60718a1b2c3d4"] rfl rfl envW none none none true

/-- C10: in `verify`, the verification-key set collects at most one key per
identifier: it is the address-ordered concatenation of one-element
contributions, and for an identifier matched by one or more keystore keys the
contribution is exactly the first matched key, any further keys being
ignored. -/
theorem verify_uses_first_matching_key {K : Type} (keyring : Keyring K)
    (signingKeyIds : List KeyIdJs) :
    (verifySigningKeys keyring signingKeyIds =
        signingKeyIds.flatMap fun keyId =>
          match keyring.keystoreGetKeysForId (keyIdHex keyId) true with
          | some keys => [keys.head?]
          | none => []) ∧
      ∀ (keyId : KeyIdJs) (k : K) (rest : List K),
        keyring.keystoreGetKeysForId (keyIdHex keyId) true = some (k :: rest) →
          verifySigningKeys keyring [keyId] = [some k] := by
  constructor
  · have h := verifySigningKeysFoldl keyring signingKeyIds []
    simpa [verifySigningKeys] using h
  · intro keyId k rest h
    simp [verifySigningKeys, h]

/-- Witness for C10 at a concrete input: `krW`'s keystore returns two keys
for every identifier, and only the first enters the verification-key set. -/
theorem verify_uses_first_matching_key_witness :
    verifySigningKeys krW [.str "1a2b3c4d5e6f7081"] = [some 3] :=
  (verify_uses_first_matching_key krW [.str "1a2b3c4d5e6f7081"]).2
    (.str "1a2b3c4d5e6f7081") 3 [4] rfl


/-- C6: `mapSignatures` returns one record per raw input signature, the
record at each position is the mapping of the input signature at the same
position (so one signature's outcome never suppresses another's), and for
every completion order of the per-signature evaluations — any permutation of
the input indices in the `Promise.all` model `promiseAllSchedule` — the
assembled output equals `mapSignatures`, i.e. reflects input order, not
completion order. -/
theorem mapSignatures_preserves_order {K : Type} (keyring : Keyring K)
    (sigs : List RawSignature) :
    (mapSignatures sigs keyring).length = sigs.length ∧
      (∀ i : Nat, (mapSignatures sigs keyring)[i]? =
        sigs[i]?.map (mapSignature keyring)) ∧
      ∀ order : List Nat, order.Perm (List.range sigs.length) →
        promiseAllSchedule (mapSignature keyring) sigs order =
          (mapSignatures sigs keyring).map some := by
  refine ⟨by simp [mapSignatures], fun i => by simp [mapSignatures], ?_⟩
  intro order hperm
  have hmem : ∀ j : Nat, j ∈ order ↔ j < sigs.length := fun j => by
    rw [hperm.mem_iff, List.mem_range]
  apply List.ext_getElem?
  intro j
  unfold promiseAllSchedule
  rw [foldl_completeAt_getElem (mapSignature keyring) sigs order _
    (List.length_replicate _ _) j]
  by_cases hj : j < sigs.length
  · rw [if_pos ⟨(hmem j).mpr hj, hj⟩]
    simp [mapSignatures, List.getElem?_eq_getElem hj]
  · rw [if_neg fun h => hj h.2]
    rw [List.getElem?_eq_none (by simpa using Nat.le_of_not_lt hj),
      List.getElem?_eq_none]
    simp [mapSignatures]
    omega

/-- Witness for C6 at a concrete input: two signatures completing in reverse
order still assemble in input order. -/
theorem mapSignatures_preserves_order_witness :
    promiseAllSchedule (mapSignature krW) [sigOkW, sigNoKeyW] [1, 0] =
      (mapSignatures [sigOkW, sigNoKeyW] krW).map some :=
  (mapSignatures_preserves_order krW [sigOkW, sigNoKeyW]).2.2 [1, 0] (by decide)

end OpenPGPjs
